import Mathlib

/-!
Verification of the aws-infoblox-vpc-scripts repository core logic.

Shallow embedding of the Python source:
* `check_network_overlap` / `analyze_network_overlaps` from
  prop_infoblox_import_enhanced_complete.py (overlap analysis),
* `map_aws_tags_to_infoblox_eas`, `_compare_eas`, priority calculation and
  `check_network_or_container_exists` from the aws_infoblox_vpc_manager
  variants,
* `compare_properties_with_infoblox` and
  `create_missing_networks_with_overlap_check` from
  prop_infoblox_import_enhanced_complete.py.

Python dicts are modelled as insertion-ordered association lists
(`List (String × String)`); Python sets are modelled by insertion-ordered
duplicate-free lists together with an explicitly quantified iteration
order (CPython set iteration order over strings is unspecified).
Machine integers are `Nat`/`Int`; fallible code returns `Option`/`Except`.
All string processing is done by structural recursion over the
character list of the string, so every definition evaluates inside the
kernel.
-/

namespace AwsInfoblox

/-! ## String helpers (ASCII fragments of the Python builtins used) -/

/-- Split a character list at every occurrence of the separator
character: Python `s.split(sep)` for a one-character separator. -/
def splitOnChar (sep : Char) : List Char → List (List Char)
  | [] => [[]]
  | c :: cs =>
      let rest := splitOnChar sep cs
      if c == sep then [] :: rest
      else match rest with
           | [] => [[c]]
           | r :: rs => (c :: r) :: rs

/-- Split a string on a one-character separator, Python `s.split(sep)`. -/
def strSplit (s : String) (sep : Char) : List String :=
  (splitOnChar sep s.data).map String.mk

/-- Does `l` start with `pat`? -/
def startsWithL : List Char → List Char → Bool
  | [], _ => true
  | _ :: _, [] => false
  | p :: ps, c :: cs => p == c && startsWithL ps cs

/-- Is `pat` a contiguous substring of `l`? -/
def infixL (pat : List Char) : List Char → Bool
  | [] => startsWithL pat []
  | c :: cs => startsWithL pat (c :: cs) || infixL pat cs

/-- Python `sub in s` substring test. -/
def strContains (s sub : String) : Bool :=
  infixL sub.data s.data

/-- ASCII lower-casing of one character (Python `str.lower` restricted to
the ASCII data these scripts process). -/
def lowerChar (c : Char) : Char :=
  if 'A' ≤ c && c ≤ 'Z' then Char.ofNat (c.toNat + 32) else c

/-- Python `s.lower()`. -/
def strLower (s : String) : String :=
  String.mk (s.data.map lowerChar)

/-- Python `s.replace(old, new)` for one-character `old`/`new`. -/
def strReplaceChar (s : String) (old new : Char) : String :=
  String.mk (s.data.map (fun c => if c == old then new else c))

/-- Python `s[:n]` prefix-truncation by characters. -/
def strTake (s : String) (n : Nat) : String :=
  String.mk (s.data.take n)

/-- Numeric value of a digit list (most significant first). -/
def digitsVal : List Char → Nat → Nat
  | [], acc => acc
  | c :: cs, acc => digitsVal cs (acc * 10 + (c.toNat - 48))

/-- Parse a non-empty all-digit character list (leading zeros allowed),
as Python `int(s)` does after its `isdigit` check. -/
def parseDigits (l : List Char) : Option Nat :=
  if l.isEmpty then none
  else if l.all Char.isDigit then some (digitsVal l 0)
  else none

/-- Python `int(s)` on the forms the scripts feed it: an optional single
sign followed by decimal digits. Returns `none` where Python raises
`ValueError`. -/
def pyInt (s : String) : Option Int :=
  match s.data with
  | '-' :: rest => (parseDigits rest).map (fun n => -(n : Int))
  | '+' :: rest => (parseDigits rest).map (fun n => (n : Int))
  | l => (parseDigits l).map (fun n => (n : Int))

/-- First-match association-list lookup: Python `d.get(k)` on a dict whose
entries are listed in insertion order. -/
def assocGet (l : List (String × String)) (k : String) : Option String :=
  match l with
  | [] => none
  | p :: rest => if p.1 == k then some p.2 else assocGet rest k

/-- Python dict assignment `d[k] = v`: if the key is present its value is
replaced in place (insertion order of the key is kept), otherwise the pair
is appended. -/
def dictInsert (l : List (String × String)) (k v : String) :
    List (String × String) :=
  match l with
  | [] => [(k, v)]
  | p :: rest =>
      if p.1 == k then (k, v) :: rest else p :: dictInsert rest k v

/-! ## IPv4 network model (Python `ipaddress.ip_network(·, strict=False)`) -/

/-- One dotted-quad octet: 1–3 ASCII digits, no leading zero, value ≤ 255
(Python `ipaddress` rejects leading zeros and non-digits). -/
def parseOctet (l : List Char) : Option Nat :=
  if l.isEmpty || l.length > 3 then none
  else if !(l.all Char.isDigit) then none
  else if l.length > 1 && (l.headD '0') == '0' then none
  else
    let n := digitsVal l 0
    if n ≤ 255 then some n else none

/-- Dotted-quad IPv4 address as a 32-bit natural number. -/
def parseIPv4 (s : String) : Option Nat :=
  match splitOnChar '.' s.data with
  | [a, b, c, d] =>
      match parseOctet a, parseOctet b, parseOctet c, parseOctet d with
      | some a, some b, some c, some d =>
          some (((a * 256 + b) * 256 + c) * 256 + d)
      | _, _, _, _ => none
  | _ => none

/-- A parsed IPv4 network: network address (host bits already zeroed by
`strict=False` masking) and prefix length. -/
structure IPNet where
  netAddr : Nat
  prefixLen : Nat
deriving DecidableEq, Repr

/-- Zero the host bits of `addr` for prefix length `p` (what
`strict=False` does). -/
def maskHost (addr p : Nat) : Nat :=
  (addr / 2 ^ (32 - p)) * 2 ^ (32 - p)

/-- Python `ipaddress.ip_network(s, strict=False)` on the IPv4 string
forms used by the scripts: `"a.b.c.d/p"` with integer prefix 0–32, or a
bare `"a.b.c.d"` (prefix 32). Returns `none` where Python raises
`ValueError`. -/
def ip_network (s : String) : Option IPNet :=
  match splitOnChar '/' s.data with
  | [a] => (parseIPv4 (String.mk a)).map (fun addr => ⟨addr, 32⟩)
  | [a, p] =>
      match parseIPv4 (String.mk a), parseDigits p with
      | some addr, some pl =>
          if pl ≤ 32 then some ⟨maskHost addr pl, pl⟩ else none
      | _, _ => none
  | _ => none

/-- Broadcast address: last address of the block. -/
def broadcast (n : IPNet) : Nat :=
  n.netAddr + 2 ^ (32 - n.prefixLen) - 1

/-- Python `net1.supernet_of(net2)` (both IPv4):
`net1.network_address ≤ net2.network_address` and
`net2.broadcast_address ≤ net1.broadcast_address`. Note this is
non-strict: a network is a supernet of itself. -/
def supernet_of (n1 n2 : IPNet) : Bool :=
  decide (n1.netAddr ≤ n2.netAddr ∧ broadcast n2 ≤ broadcast n1)

/-- Python `net1.subnet_of(net2)`. -/
def subnet_of (n1 n2 : IPNet) : Bool :=
  supernet_of n2 n1

/-- Python `net1.overlaps(net2)`: some endpoint of one block lies inside
the other block. -/
def ipOverlaps (n1 n2 : IPNet) : Bool :=
  decide ((n2.netAddr ≤ n1.netAddr ∧ n1.netAddr ≤ broadcast n2) ∨
          (n2.netAddr ≤ broadcast n1 ∧ broadcast n1 ≤ broadcast n2) ∨
          (n1.netAddr ≤ n2.netAddr ∧ n2.netAddr ≤ broadcast n1) ∨
          (n1.netAddr ≤ broadcast n2 ∧ broadcast n2 ≤ broadcast n1))

/-- `check_network_overlap` (prop_infoblox_import_enhanced_complete.py,
lines 52–76): parse both CIDRs with `strict=False`; `'contains'` when
net1 is a supernet of net2, `'contained'` when net1 is a subnet of net2,
`'overlap'` on a partial overlap, `'none'` otherwise; any exception is
caught and reported as `'error'`. -/
def check_network_overlap (cidr1 cidr2 : String) : String :=
  match ip_network cidr1, ip_network cidr2 with
  | some n1, some n2 =>
      if supernet_of n1 n2 then "contains"
      else if subnet_of n1 n2 then "contained"
      else if ipOverlaps n1 n2 then "overlap"
      else "none"
  | _, _ => "error"

/-! ## TagAttributeMapper
(`VPCManager.map_aws_tags_to_infoblox_eas`,
aws_infoblox_vpc_manager_complete_v2.py lines 884–914) -/

/-- The fixed `tag_mapping` synonym table, in source order. -/
def tag_mapping : List (String × String) :=
  [("Name", "aws_name"),
   ("environment", "environment"),
   ("Environment", "environment"),
   ("owner", "owner"),
   ("Owner", "owner"),
   ("project", "project"),
   ("Project", "project"),
   ("location", "aws_location"),
   ("Location", "aws_location"),
   ("cloudservice", "aws_cloudservice"),
   ("createdby", "aws_created_by"),
   ("RequestedBy", "aws_requested_by"),
   ("Requested_By", "aws_requested_by"),
   ("dud", "aws_dud"),
   ("AccountId", "aws_account_id"),
   ("Region", "aws_region"),
   ("VpcId", "aws_vpc_id"),
   ("Description", "description")]

/-- Key normalization applied to one AWS tag key:
`tag_mapping.get(aws_key, f"aws_{aws_key.lower()}")` followed by
`.replace('-','_').replace(' ','_').lower()`. -/
def eaKey (awsKey : String) : String :=
  let k := (assocGet tag_mapping awsKey).getD ("aws_" ++ strLower awsKey)
  strLower (strReplaceChar (strReplaceChar k '-' '_') ' ' '_')

/-- Value normalization: `str(aws_value)[:255]` (values are already
strings here). -/
def eaValue (v : String) : String :=
  if v.length > 255 then strTake v 255 else v

/-- `VPCManager.map_aws_tags_to_infoblox_eas`: builds `mapped_eas` by
iterating the tag dict in insertion order and assigning
`mapped_eas[ea_key] = ea_value`. -/
def map_aws_tags_to_infoblox_eas (aws_tags : List (String × String)) :
    List (String × String) :=
  aws_tags.foldl (fun acc kv => dictInsert acc (eaKey kv.1) (eaValue kv.2)) []

/-! ## `_compare_eas`, two variants -/

/-- `VPCManager._compare_eas` of aws_infoblox_vpc_manager_complete_v2.py
(lines 1012–1029) and prop_infoblox_import_enhanced_complete.py: iterate
over the union of the two key sets; a key present on only one side, or a
value mismatch, yields `False`. The Python set-union iteration order does
not affect the conjunctive result; we iterate the deduplicated
concatenation of the two key lists. -/
def compare_eas (mapped_eas ib_eas : List (String × String)) : Bool :=
  ((mapped_eas.map Prod.fst ++ ib_eas.map Prod.fst).dedup).all fun k =>
    match assocGet mapped_eas k, assocGet ib_eas k with
    | some mv, some iv => mv == iv
    | _, _ => false

/-- `VPCManager._compare_eas` of aws_infoblox_vpc_manager_working.py
(lines 459–465): iterates only the keys of `mapped_eas`; returns `False`
when a key is absent from `ib_eas` or its value differs. -/
def compare_eas_working (mapped_eas ib_eas : List (String × String)) : Bool :=
  mapped_eas.all fun kv =>
    match assocGet ib_eas kv.1 with
    | some iv => iv == kv.2
    | none => false

/-! ## PriorityScheduler
(`VPCManager._calculate_network_priority`,
aws_infoblox_vpc_manager_working.py lines 467–492) -/

/-- `int(vpc['CidrBlock'].split('/')[1])`: `none` models the exception
(`IndexError` when there is no `'/'`, `ValueError` when the field after
the first `'/'` is not an integer). -/
def cidrPrefixField (cidr : String) : Option Int :=
  match strSplit cidr '/' with
  | _ :: p :: _ => pyInt p
  | _ => none

/-- `aws_tags.get('environment', aws_tags.get('Environment', '')).lower()` -/
def envOf (aws_tags : List (String × String)) : String :=
  strLower ((assocGet aws_tags "environment").getD
    ((assocGet aws_tags "Environment").getD ""))

/-- The environment adjustment subtracted from the base priority. -/
def envBonus (env : String) : Int :=
  if env == "prod" || env == "production" then 5
  else if env == "staging" || env == "stage" then 3
  else if env == "test" || env == "testing" then 2
  else if env == "dev" || env == "development" then 1
  else 0

/-- `VPCManager._calculate_network_priority`: base priority is the CIDR
prefix length (99 when unparseable), minus the environment bonus, clamped
to a minimum of 1. -/
def calculate_network_priority (cidrBlock : String)
    (aws_tags : List (String × String)) : Int :=
  let base := (cidrPrefixField cidrBlock).getD 99
  max 1 (base - envBonus (envOf aws_tags))

/-! ## InfoBlox client existence check
(`InfoBloxClient.check_network_or_container_exists`,
aws_infoblox_vpc_manager_complete_v2.py lines 692–716) -/

/-- An InfoBlox network / network-container object as returned by the
WAPI (reference plus extracted extensible attributes). Such JSON objects
are non-empty dicts, hence truthy in Python. -/
structure IBObject where
  ref : String
  extattrs : List (String × String)
deriving DecidableEq, Repr

/-- Behaviour of one GET endpoint for one query: the JSON list of
matching objects, or an HTTP error status. -/
inductive EndpointResp where
  | objs (l : List IBObject)
  | httpError (status : Nat)
deriving DecidableEq, Repr

/-- `get_network_by_cidr` / `get_network_container_by_cidr` result
handling: a non-empty JSON list yields its first element, an empty list
yields `None`, HTTP 400/404 yield `None`, any other `HTTPError` is
re-raised. -/
def getByCidr (resp : EndpointResp) : Except Nat (Option IBObject) :=
  match resp with
  | .objs l => .ok l.head?
  | .httpError s =>
      if s == 400 || s == 404 then .ok none else .error s

/-- Result dict of `check_network_or_container_exists`:
`{'exists': …, 'type': …, 'object': …}`. -/
structure CheckResult where
  exists_ : Bool
  type_ : Option String
  object : Option IBObject
deriving DecidableEq, Repr

/-- `InfoBloxClient.check_network_or_container_exists`, instrumented with
a flag recording whether the container endpoint was queried. The network
endpoint is consulted first; the container endpoint is consulted only
when the network lookup produced `None`. -/
def check_network_or_container_exists (netResp contResp : EndpointResp) :
    Except Nat (CheckResult × Bool) :=
  match getByCidr netResp with
  | .error s => .error s
  | .ok (some obj) => .ok (⟨true, some "network", some obj⟩, false)
  | .ok none =>
      match getByCidr contResp with
      | .error s => .error s
      | .ok (some obj) => .ok (⟨true, some "container", some obj⟩, true)
      | .ok none => .ok (⟨false, none, none⟩, true)

/-! ## Reconciliation
(`PropertyManager.compare_properties_with_infoblox`,
prop_infoblox_import_enhanced_complete.py lines 553–652) -/

/-- One input row of the property CSV (`cidr`, `site_id`, `m_host`). -/
structure PropRow where
  cidr : String
  site_id : String
  m_host : String
deriving DecidableEq, Repr

/-- `map_properties_to_infoblox_eas`: the fixed EA dict built for a row.
`import_date` (`datetime.now()` in the source) is passed in as a
parameter. -/
def map_properties_to_infoblox_eas (site_id m_host importDate : String) :
    List (String × String) :=
  [("site_id", site_id), ("m_host", m_host),
   ("source", "properties_file"), ("import_date", importDate)]

/-- One entry appended to a result bucket; only the fields the claims
need are kept (`property` is the full input row). -/
structure RowEntry where
  property : PropRow
  cidr : String
  err : Option String
deriving DecidableEq, Repr

/-- The five result buckets of `compare_properties_with_infoblox`. -/
structure CompareResults where
  matches_ : List RowEntry
  missing : List RowEntry
  discrepancies : List RowEntry
  containers : List RowEntry
  errors : List RowEntry
deriving DecidableEq, Repr

def emptyResults : CompareResults := ⟨[], [], [], [], []⟩

/-- The message of the `AttributeError` Python raises when
`existence_check['object']` is `None` and `.get` is called on it. -/
def noneTypeMsg : String := "NoneType object has no attribute get"

/-- Processing of one row inside the `try`/`except` of
`compare_properties_with_infoblox`. The external
`check_network_or_container_exists` call is abstracted as
`lookup : String → Except String CheckResult` (its `.error` case models a
raised exception with the given message). A raised message containing
`"not found"` (case-insensitive) or `"404"` routes the row to `missing`;
any other exception routes it to `errors`. -/
def classifyRow (lookup : String → Except String CheckResult)
    (res : CompareResults) (p : PropRow) : CompareResults :=
  let entry : Option String → RowEntry := fun e => ⟨p, p.cidr, e⟩
  let exceptRoute : String → CompareResults := fun msg =>
    if strContains (strLower msg) "not found" || strContains msg "404" then
      { res with missing := res.missing ++ [entry none] }
    else
      { res with errors := res.errors ++ [entry (some msg)] }
  match lookup p.cidr with
  | .error msg => exceptRoute msg
  | .ok chk =>
      if !chk.exists_ then
        { res with missing := res.missing ++ [entry none] }
      else if chk.type_ == some "container" then
        match chk.object with
        | none => exceptRoute noneTypeMsg
        | some _ => { res with containers := res.containers ++ [entry none] }
      else
        match chk.object with
        | none => exceptRoute noneTypeMsg
        | some obj =>
            let mapped := map_properties_to_infoblox_eas p.site_id p.m_host ""
            if compare_eas mapped obj.extattrs then
              { res with matches_ := res.matches_ ++ [entry none] }
            else
              { res with discrepancies := res.discrepancies ++ [entry none] }

/-- `PropertyManager.compare_properties_with_infoblox`: fold
`classifyRow` over the input rows. -/
def compare_properties_with_infoblox
    (lookup : String → Except String CheckResult)
    (rows : List PropRow) : CompareResults :=
  rows.foldl (classifyRow lookup) emptyResults

/-- All `property` fields appearing in any bucket. -/
def allProps (r : CompareResults) : List PropRow :=
  r.matches_.map (·.property) ++ r.missing.map (·.property) ++
  r.discrepancies.map (·.property) ++ r.containers.map (·.property) ++
  r.errors.map (·.property)

/-! ## OverlapAnalyzer
(`analyze_network_overlaps`,
prop_infoblox_import_enhanced_complete.py lines 78–121) -/

/-- One element of the `missing_networks` list handed to the enhanced
creation path: the dict keys that determine record identity
(`==` on dicts) and that the orchestrator reads. -/
structure MissingNet where
  cidr : String
  site_id : String
  m_host : String
  mapped_eas : List (String × String)
deriving DecidableEq, Repr

/-- One entry of the `overlaps` list:
`{'network1': …, 'network2': …, 'message': …}`. -/
structure OverlapPair where
  network1 : MissingNet
  network2 : MissingNet
  message : String
deriving DecidableEq, Repr

/-- The result dict of `analyze_network_overlaps`. `containers` is a
Python `set` modelled by its insertion-ordered duplicate-free enumeration;
the actual CPython iteration order is an unspecified permutation of it,
quantified separately where it matters. `relationships` is an
insertion-ordered dict. -/
structure OverlapAnalysis where
  containers : List String
  relationships : List (String × List MissingNet)
  overlaps : List OverlapPair
deriving DecidableEq, Repr

/-- Python `set.add`. -/
def setAdd (l : List String) (s : String) : List String :=
  if l.contains s then l else l ++ [s]

/-- `result['relationships'].setdefault(cidr1, []).append(net2)` shape:
append to the entry of `k`, creating it if absent. -/
def relAppend (r : List (String × List MissingNet)) (k : String)
    (n : MissingNet) : List (String × List MissingNet) :=
  match r with
  | [] => [(k, [n])]
  | p :: rest =>
      if p.1 == k then (p.1, p.2 ++ [n]) :: rest else p :: relAppend rest k n

/-- The f-string message of a partial-overlap entry. -/
def overlapMsg (cidr1 cidr2 : String) : String :=
  "Networks " ++ cidr1 ++ " and " ++ cidr2 ++ " partially overlap"

/-- Body of the pairwise loop of `analyze_network_overlaps` for the pair
`(net1, net2)` with `net1` earlier in the sorted order. -/
def pairStep (net1 : MissingNet) (acc : OverlapAnalysis) (net2 : MissingNet) :
    OverlapAnalysis :=
  if check_network_overlap net1.cidr net2.cidr == "contains" then
    { acc with containers := setAdd acc.containers net1.cidr,
               relationships := relAppend acc.relationships net1.cidr net2 }
  else if check_network_overlap net1.cidr net2.cidr == "overlap" then
    { acc with overlaps :=
        acc.overlaps ++ [⟨net1, net2, overlapMsg net1.cidr net2.cidr⟩] }
  else acc

/-- The double loop `for i, net1 …: for j, net2 in sorted[i+1:] …`. -/
def analyzeLoop : List MissingNet → OverlapAnalysis → OverlapAnalysis
  | [], acc => acc
  | n :: rest, acc => analyzeLoop rest (rest.foldl (pairStep n) acc)

/-- Stable insertion of a keyed element after all elements with a key
`≤` its own. -/
def insertByKey (x : Int × MissingNet) :
    List (Int × MissingNet) → List (Int × MissingNet)
  | [] => [x]
  | y :: ys => if y.1 ≤ x.1 then y :: insertByKey x ys else x :: y :: ys

/-- Stable sort by key (insertion from the left), the behaviour of
Python `sorted(networks, key=…)` with a stable sort. -/
def sortByKey (l : List (Int × MissingNet)) : List (Int × MissingNet) :=
  l.foldl (fun acc x => insertByKey x acc) []

/-- Compute the sort key `int(x['cidr'].split('/')[1])` for every
record; `none` models the exception the key computation raises on the
first record whose cidr has no `'/'` or a non-integer field after it. -/
def keyRecords : List MissingNet → Option (List (Int × MissingNet))
  | [] => some []
  | n :: rest =>
      match cidrPrefixField n.cidr, keyRecords rest with
      | some k, some ks => some ((k, n) :: ks)
      | _, _ => none

/-- `analyze_network_overlaps`: sort by
`int(x['cidr'].split('/')[1])` — computing that key raises
(`.error ()`) when some record's cidr has no `'/'` or a non-integer
field after it — then run the pairwise loop on the sorted list. -/
def analyze_network_overlaps (networks : List MissingNet) :
    Except Unit OverlapAnalysis :=
  match keyRecords networks with
  | none => .error ()
  | some keyed =>
      .ok (analyzeLoop ((sortByKey keyed).map Prod.snd) ⟨[], [], []⟩)

/-- All CIDR strings and records named anywhere in an `OverlapAnalysis`
parse as IP networks — the invariant of the pairwise loop used to show
that unparseable records are excluded from every relationship. -/
def parsedAnalysis (a : OverlapAnalysis) : Prop :=
  (∀ c ∈ a.containers, (ip_network c).isSome = true) ∧
  (∀ p ∈ a.relationships, (ip_network p.1).isSome = true ∧
    ∀ m ∈ p.2, (ip_network m.cidr).isSome = true) ∧
  (∀ ov ∈ a.overlaps, (ip_network ov.network1.cidr).isSome = true ∧
    (ip_network ov.network2.cidr).isSome = true)

/-! ## CreationOrchestrator
(`PropertyManager.create_missing_networks_with_overlap_check`,
prop_infoblox_import_enhanced_complete.py lines 710–815) -/

/-- The action recorded in a result entry. `wouldCreateContainer`,
`createdContainer`, `wouldCreate`, `created` are the literal `action`
strings `'would_create_container'`, `'created_container'`,
`'would_create'`, `'created'`; failed and skipped entries carry no
`action` field and are represented by their bucket. -/
inductive Act where
  | wouldCreateContainer
  | createdContainer
  | failedContainer (err : String)
  | wouldCreate
  | created
  | failedNetwork (err : String)
  | skippedOverlap (reason : String)
deriving DecidableEq, Repr

/-- Chronological trace of the orchestrator: external mutating calls
(identified by the CIDR they are issued for) interleaved with result
entries in append order. -/
inductive Event where
  | callContainer (cidr : String)
  | callNetwork (cidr : String)
  | outcome (cidr : String) (act : Act)
deriving DecidableEq, Repr

def eventCidr : Event → String
  | .callContainer c => c
  | .callNetwork c => c
  | .outcome c _ => c

def isCallEvent : Event → Bool
  | .callContainer _ => true
  | .callNetwork _ => true
  | .outcome _ _ => false

/-- Body of the container-creation loop for one element of the
`containers` set. `next((n for n in missing_networks if n['cidr'] ==
container_cidr), None)` finds the record; the external
`create_network_container` call is abstracted by
`oc : String → Option String` (`none` = success, `some msg` = raised
exception message). -/
def containerStep (missing : List MissingNet) (oc : String → Option String)
    (dryRun : Bool) (ccidr : String) : List Event :=
  match missing.find? (fun n => n.cidr == ccidr) with
  | none => []
  | some _ =>
      if dryRun then [.outcome ccidr .wouldCreateContainer]
      else
        match oc ccidr with
        | none => [.callContainer ccidr, .outcome ccidr .createdContainer]
        | some e => [.callContainer ccidr, .outcome ccidr (.failedContainer e)]

/-- Body of the regular-network loop for one record: skip records whose
cidr is in the `containers` set; give records matching a partial-overlap
pair (dict equality against `network1`/`network2`, first matching pair
wins) a `skipped_due_to_overlap` entry; otherwise create the network
through `on_` (same success/exception convention as `oc`). -/
def networkStep (a : OverlapAnalysis) (on_ : String → Option String)
    (dryRun : Bool) (n : MissingNet) : List Event :=
  if a.containers.contains n.cidr then []
  else
    match a.overlaps.find? (fun ov => ov.network1 == n || ov.network2 == n) with
    | some ov => [.outcome n.cidr (.skippedOverlap ov.message)]
    | none =>
        if dryRun then [.outcome n.cidr .wouldCreate]
        else
          match on_ n.cidr with
          | none => [.callNetwork n.cidr, .outcome n.cidr .created]
          | some e => [.callNetwork n.cidr, .outcome n.cidr (.failedNetwork e)]

/-- The orchestrator body after the overlap analysis: the container loop
(iterating the `containers` set in the order `containerOrder`, CPython's
unspecified set order) followed by the regular-network loop. -/
def create_missing_core (a : OverlapAnalysis) (containerOrder : List String)
    (missing : List MissingNet) (oc on_ : String → Option String)
    (dryRun : Bool) : List Event :=
  (containerOrder.map (containerStep missing oc dryRun)).flatten ++
  (missing.map (networkStep a on_ dryRun)).flatten

/-- `PropertyManager.create_missing_networks_with_overlap_check`: run
`analyze_network_overlaps` on the missing networks (its exception
propagates), then the two creation loops. `containerOrder` is the
iteration order of the `containers` set. -/
def create_missing_networks_with_overlap_check (missing : List MissingNet)
    (containerOrder : List String) (oc on_ : String → Option String)
    (dryRun : Bool) : Except Unit (List Event) :=
  match analyze_network_overlaps missing with
  | .error e => .error e
  | .ok a => .ok (create_missing_core a containerOrder missing oc on_ dryRun)

/-- The classification kind of an action, the part shared between
dry-run and live entries (`'would_create_container'`/`'created_container'`
↦ container creation, `'would_create'`/`'created'` ↦ network creation). -/
inductive ActKind where
  | containerK
  | networkK
  | skipK
  | failContainerK
  | failNetworkK
deriving DecidableEq, Repr

def actKind : Act → ActKind
  | .wouldCreateContainer => .containerK
  | .createdContainer => .containerK
  | .failedContainer _ => .failContainerK
  | .wouldCreate => .networkK
  | .created => .networkK
  | .failedNetwork _ => .failNetworkK
  | .skippedOverlap _ => .skipK

/-- The sequence of action kinds of the result entries of a trace
(external-call events are not result entries). -/
def outcomeKinds (tr : List Event) : List ActKind :=
  tr.filterMap fun e =>
    match e with
    | .outcome _ a => some (actKind a)
    | _ => none

/-! ## Theorems -/

/-- Claim C2 counterexample: the code's containment is not strict — for
the valid CIDR `10.0.0.0/24`, `check_network_overlap` applied to two
identical CIDRs returns `'contains'` (Python `supernet_of` is
non-strict), contradicting "check_network_overlap(A,A) never returns
'contains'". -/
theorem C2_counterexample :
    check_network_overlap "10.0.0.0/24" "10.0.0.0/24" = "contains" := by
  decide

/-- Auxiliary: a `'contains'` verdict means both CIDRs parsed and net1's
range (non-strictly) includes net2's. -/
theorem check_contains_iff (c1 c2 : String) (n1 n2 : IPNet)
    (h1 : ip_network c1 = some n1) (h2 : ip_network c2 = some n2) :
    check_network_overlap c1 c2 = "contains" ↔ supernet_of n1 n2 = true := by
  simp only [check_network_overlap, h1, h2]
  cases hs : supernet_of n1 n2 with
  | true => simp [hs]
  | false =>
      simp only [Bool.false_eq_true, if_false]
      constructor
      · intro h
        exfalso
        split at h
        · exact absurd h (by decide)
        · split at h
          · exact absurd h (by decide)
          · exact absurd h (by decide)
      · intro h
        exact h.elim

/-- Claim C2 (amended): `'contains'` is transitive, and it is reflexive
rather than irreflexive — for every valid CIDR `a`,
`check_network_overlap a a = 'contains'` because Python's `supernet_of`
is a non-strict inclusion. -/
theorem C2_contains_transitive_and_reflexive
    (a b c : String) (na nb nc : IPNet)
    (ha : ip_network a = some na) (hb : ip_network b = some nb)
    (hc : ip_network c = some nc) :
    (check_network_overlap a b = "contains" →
     check_network_overlap b c = "contains" →
     check_network_overlap a c = "contains") ∧
    check_network_overlap a a = "contains" := by
  constructor
  · intro hab hbc
    rw [check_contains_iff a b na nb ha hb] at hab
    rw [check_contains_iff b c nb nc hb hc] at hbc
    rw [check_contains_iff a c na nc ha hc]
    unfold supernet_of at *
    simp only [decide_eq_true_eq] at *
    exact ⟨le_trans hab.1 hbc.1, le_trans hbc.2 hab.2⟩
  · rw [check_contains_iff a a na na ha ha]
    unfold supernet_of
    simp

/-- Witness for C2's amended theorem at the concrete CIDRs
`10.0.0.0/8 ⊇ 10.0.0.0/16 ⊇ 10.0.0.0/24`. -/
theorem C2_witness :
    check_network_overlap "10.0.0.0/8" "10.0.0.0/24" = "contains" ∧
    check_network_overlap "10.0.0.0/8" "10.0.0.0/8" = "contains" := by
  have h := C2_contains_transitive_and_reflexive
    "10.0.0.0/8" "10.0.0.0/16" "10.0.0.0/24"
    ⟨167772160, 8⟩ ⟨167772160, 16⟩ ⟨167772160, 24⟩
    (by decide) (by decide) (by decide)
  exact ⟨h.1 (by decide) (by decide), h.2⟩

/-- Claim C9: for a record whose CIDR has a parseable prefix length `p`,
`_calculate_network_priority` returns `max 1 (p − bonus)` where the
bonus is read from the record's `environment`/`Environment` tag
(case-insensitive): production/prod → 5, staging/stage → 3,
test/testing → 2, dev/development → 1, anything else → 0. -/
theorem C9_priority_formula (cidr : String) (tags : List (String × String))
    (p : Int) (hp : cidrPrefixField cidr = some p) :
    calculate_network_priority cidr tags =
      max 1 (p - envBonus (envOf tags)) := by
  unfold calculate_network_priority
  rw [hp]
  rfl

/-- Witness for C9: a `/24` record tagged `prod` receives priority 19, a
`/24` record tagged `dev` receives 23, so the prod record sorts first. -/
theorem C9_witness :
    calculate_network_priority "10.0.0.0/24" [("environment", "prod")] = 19 ∧
    calculate_network_priority "10.0.0.0/24" [("environment", "dev")] = 23 ∧
    (19 : Int) < 23 := by
  refine ⟨?_, ?_, by decide⟩
  · rw [C9_priority_formula "10.0.0.0/24" _ 24 (by decide)]
    decide
  · rw [C9_priority_formula "10.0.0.0/24" _ 24 (by decide)]
    decide

/-- Claim C10: `check_network_or_container_exists` consults the plain
network endpoint first; when that lookup yields an object the result is
typed `'network'` and the container endpoint is never queried (recorded
by the instrumentation flag being `false`), and the container endpoint
is queried only when the network lookup produced `None`. Hence a CIDR
present both as a network and as a container is classified `'network'`. -/
theorem C10_network_endpoint_precedence (netResp contResp : EndpointResp) :
    (∀ obj, getByCidr netResp = .ok (some obj) →
      check_network_or_container_exists netResp contResp =
        .ok (⟨true, some "network", some obj⟩, false)) ∧
    (∀ res q, check_network_or_container_exists netResp contResp =
        .ok (res, q) → q = true → getByCidr netResp = .ok none) := by
  constructor
  · intro obj h
    unfold check_network_or_container_exists
    rw [h]
  · intro res q h hq
    unfold check_network_or_container_exists at h
    cases hn : getByCidr netResp with
    | error s => rw [hn] at h; exact absurd h (by simp)
    | ok o =>
        cases o with
        | none => rfl
        | some obj =>
            rw [hn] at h
            simp at h
            rw [h.2] at hq
            exact absurd hq (by decide)

/-- Witness for C10: a store holding the CIDR both as a network
(`ref1`) and as a container (`ref2`) classifies it as the network and
does not touch the container endpoint. -/
theorem C10_witness :
    check_network_or_container_exists
      (.objs [⟨"ref1", []⟩]) (.objs [⟨"ref2", []⟩]) =
      .ok (⟨true, some "network", some ⟨"ref1", []⟩⟩, false) :=
  (C10_network_endpoint_precedence _ _).1 ⟨"ref1", []⟩ rfl

/-! ### Dict lemmas for the tag mapper -/

theorem eaValue_idem (v : String) : eaValue (eaValue v) = eaValue v := by
  by_cases h : v.length > 255
  · have h1 : eaValue v = strTake v 255 := by unfold eaValue; rw [if_pos h]
    have hlen : (strTake v 255).length ≤ 255 := by
      show (v.data.take 255).length ≤ 255
      rw [List.length_take]
      exact min_le_left _ _
    rw [h1]
    unfold eaValue
    rw [if_neg (by omega)]
  · have h1 : eaValue v = v := by unfold eaValue; rw [if_neg h]
    rw [h1, h1]

theorem dictInsert_keys_of_mem {l : List (String × String)} {k : String}
    (v : String) (h : k ∈ l.map Prod.fst) :
    (dictInsert l k v).map Prod.fst = l.map Prod.fst := by
  induction l with
  | nil => simp at h
  | cons p rest ih =>
      unfold dictInsert
      by_cases hp : p.1 = k
      · simp [hp]
      · have hpb : (p.1 == k) = false := by simp [hp]
        rw [hpb]
        simp only [Bool.false_eq_true, if_false, List.map_cons]
        have hk : k ∈ rest.map Prod.fst := by
          simp only [List.map_cons, List.mem_cons] at h
          rcases h with h | h
          · exact absurd h.symm hp
          · exact h
        rw [ih hk]

theorem dictInsert_of_not_mem {l : List (String × String)} {k : String}
    (v : String) (h : k ∉ l.map Prod.fst) :
    dictInsert l k v = l ++ [(k, v)] := by
  induction l with
  | nil => rfl
  | cons p rest ih =>
      unfold dictInsert
      have hp : (p.1 == k) = false := by
        simp only [List.map_cons, List.mem_cons] at h
        push_neg at h
        exact beq_eq_false_iff_ne.mpr (fun he => h.1 he.symm)
      rw [hp]
      simp only [Bool.false_eq_true, if_false, List.cons_append,
        List.cons.injEq, true_and]
      apply ih
      intro hk
      exact h (by simp [hk])

theorem dictInsert_nodup_keys {l : List (String × String)} {k v : String}
    (h : (l.map Prod.fst).Nodup) :
    ((dictInsert l k v).map Prod.fst).Nodup := by
  by_cases hk : k ∈ l.map Prod.fst
  · rw [dictInsert_keys_of_mem v hk]; exact h
  · rw [dictInsert_of_not_mem v hk]
    simp only [List.map_append, List.map_cons, List.map_nil]
    rw [List.nodup_append]
    refine ⟨h, List.nodup_singleton k, ?_⟩
    intro a ha hb
    rw [List.mem_singleton] at hb
    exact hk (hb ▸ ha)

theorem dictInsert_mem {l : List (String × String)} {k v : String}
    {kv : String × String} (h : kv ∈ dictInsert l k v) :
    kv ∈ l ∨ kv = (k, v) := by
  induction l with
  | nil => simp [dictInsert] at h; simp [h]
  | cons p rest ih =>
      unfold dictInsert at h
      split at h
      · rcases List.mem_cons.mp h with h | h
        · exact Or.inr h
        · exact Or.inl (List.mem_cons_of_mem _ h)
      · rcases List.mem_cons.mp h with h | h
        · exact Or.inl (h ▸ List.mem_cons_self _ _)
        · rcases ih h with h | h
          · exact Or.inl (List.mem_cons_of_mem _ h)
          · exact Or.inr h

/-- Every entry of the mapper's output accumulator either was already in
the accumulator or has an `eaValue`-fixed value. -/
theorem mapFold_values (tags : List (String × String)) :
    ∀ (acc : List (String × String)),
    (∀ kv ∈ acc, eaValue kv.2 = kv.2) →
    ∀ kv ∈ tags.foldl
      (fun a kv => dictInsert a (eaKey kv.1) (eaValue kv.2)) acc,
      eaValue kv.2 = kv.2 := by
  induction tags with
  | nil => intro acc hacc kv h; exact hacc kv h
  | cons t rest ih =>
      intro acc hacc kv h
      refine ih _ ?_ kv h
      intro kv' h'
      rcases dictInsert_mem h' with h' | h'
      · exact hacc kv' h'
      · rw [h']; exact eaValue_idem t.2

/-- The mapper's output has duplicate-free keys (it is a dict). -/
theorem mapFold_nodup_keys (tags : List (String × String)) :
    ∀ (acc : List (String × String)),
    ((acc.map Prod.fst).Nodup) →
    (((tags.foldl
      (fun a kv => dictInsert a (eaKey kv.1) (eaValue kv.2)) acc).map
        Prod.fst).Nodup) := by
  induction tags with
  | nil => intro acc hacc; exact hacc
  | cons t rest ih => intro acc hacc; exact ih _ (dictInsert_nodup_keys hacc)

/-- Rebuilding lemma: folding `dictInsert` over an entry list whose keys
are fixed points, values are fixed points and whose keys (together with
the accumulator's) are duplicate-free just appends the list. -/
theorem mapFold_rebuild (m : List (String × String)) :
    ∀ (acc : List (String × String)),
    (((acc ++ m).map Prod.fst).Nodup) →
    (∀ kv ∈ m, eaKey kv.1 = kv.1 ∧ eaValue kv.2 = kv.2) →
    m.foldl (fun a kv => dictInsert a (eaKey kv.1) (eaValue kv.2)) acc =
      acc ++ m := by
  induction m with
  | nil => intro acc _ _; simp
  | cons kv rest ih =>
      intro acc hnd hfix
      have hk : eaKey kv.1 = kv.1 := (hfix kv (List.mem_cons_self _ _)).1
      have hv : eaValue kv.2 = kv.2 := (hfix kv (List.mem_cons_self _ _)).2
      have hknotin : kv.1 ∉ acc.map Prod.fst := by
        intro hmem
        rw [List.map_append, List.nodup_append] at hnd
        exact hnd.2.2 hmem (by simp)
      have hstep : dictInsert acc (eaKey kv.1) (eaValue kv.2) =
          acc ++ [(kv.1, kv.2)] := by
        rw [hk, hv]
        exact dictInsert_of_not_mem kv.2 hknotin
      simp only [List.foldl_cons, hstep]
      have := ih (acc ++ [(kv.1, kv.2)])
        (by simpa using hnd)
        (fun kv' h' => hfix kv' (List.mem_cons_of_mem _ h'))
      rw [this]
      simp

/-- Claim C1 counterexample: the mapper is not idempotent. For the
single tag `{'Name': 'x'}` the first application yields
`{'aws_name': 'x'}`, and a second application prefixes again, yielding
`{'aws_aws_name': 'x'}` — `'aws_'`-prefixed keys produced by the first
application are NOT left unchanged. -/
theorem C1_counterexample :
    map_aws_tags_to_infoblox_eas
        (map_aws_tags_to_infoblox_eas [("Name", "x")]) ≠
      map_aws_tags_to_infoblox_eas [("Name", "x")] ∧
    map_aws_tags_to_infoblox_eas
        (map_aws_tags_to_infoblox_eas [("Name", "x")]) =
      [("aws_aws_name", "x")] := by
  constructor
  · decide
  · decide

/-- Claim C1 (amended): the mapper is idempotent exactly on outputs all
of whose keys are fixed points of the key transform (e.g. keys that the
synonym table maps to themselves, such as `environment`, `owner`,
`project`); on such outputs a second application is the identity. Keys
whose normalized form is not a fixed point — in particular every
`'aws_'`-prefixed key the first application produces — are prefixed
again, so the mapper is not idempotent in general. -/
theorem C1_idempotent_on_fixed_keys (tags : List (String × String))
    (hk : ∀ p ∈ map_aws_tags_to_infoblox_eas tags, eaKey p.1 = p.1) :
    map_aws_tags_to_infoblox_eas (map_aws_tags_to_infoblox_eas tags) =
      map_aws_tags_to_infoblox_eas tags := by
  unfold map_aws_tags_to_infoblox_eas
  have hnd := mapFold_nodup_keys tags [] (by simp)
  have hval := mapFold_values tags [] (by simp)
  have := mapFold_rebuild (map_aws_tags_to_infoblox_eas tags) []
    (by simpa [map_aws_tags_to_infoblox_eas] using hnd)
    (fun kv h => ⟨hk kv h, hval kv (by simpa [map_aws_tags_to_infoblox_eas] using h)⟩)
  simpa [map_aws_tags_to_infoblox_eas] using this

/-- Witness for C1's amended theorem: `{'environment': 'prod'}` maps to
itself, whose single key is a fixed point, so the double application
equals the single one. -/
theorem C1_witness :
    (∀ p ∈ map_aws_tags_to_infoblox_eas [("environment", "prod")],
      eaKey p.1 = p.1) ∧
    map_aws_tags_to_infoblox_eas
        (map_aws_tags_to_infoblox_eas [("environment", "prod")]) =
      map_aws_tags_to_infoblox_eas [("environment", "prod")] :=
  ⟨by decide, C1_idempotent_on_fixed_keys [("environment", "prod")] (by decide)⟩

/-! ### `_compare_eas` lemmas -/

theorem assocGet_isSome_iff {l : List (String × String)} {k : String} :
    (assocGet l k).isSome = true ↔ k ∈ l.map Prod.fst := by
  induction l with
  | nil => simp [assocGet]
  | cons p rest ih =>
      unfold assocGet
      by_cases hp : p.1 = k
      · simp [hp]
      · have hpb : (p.1 == k) = false := beq_eq_false_iff_ne.mpr hp
        rw [hpb]
        simp only [Bool.false_eq_true, if_false, List.map_cons, List.mem_cons]
        rw [ih]
        constructor
        · exact Or.inr
        · rintro (h | h)
          · exact absurd h.symm hp
          · exact h

/-- The exact-equality `_compare_eas` returns `True` precisely when the
two dicts agree as partial maps. -/
theorem compare_eas_eq_true_iff (m ib : List (String × String)) :
    compare_eas m ib = true ↔ ∀ k, assocGet m k = assocGet ib k := by
  unfold compare_eas
  rw [List.all_eq_true]
  constructor
  · intro h k
    by_cases hk : k ∈ (m.map Prod.fst ++ ib.map Prod.fst).dedup
    · have := h k hk
      revert this
      cases hm : assocGet m k <;> cases hi : assocGet ib k <;> simp
    · have hnm : k ∉ m.map Prod.fst := fun hmem =>
        hk (List.mem_dedup.mpr (List.mem_append.mpr (Or.inl hmem)))
      have hni : k ∉ ib.map Prod.fst := fun hmem =>
        hk (List.mem_dedup.mpr (List.mem_append.mpr (Or.inr hmem)))
      have h1 : assocGet m k = none := by
        cases hm : assocGet m k with
        | none => rfl
        | some v =>
            exact absurd (assocGet_isSome_iff.mp (by rw [hm]; rfl)) hnm
      have h2 : assocGet ib k = none := by
        cases hi : assocGet ib k with
        | none => rfl
        | some v =>
            exact absurd (assocGet_isSome_iff.mp (by rw [hi]; rfl)) hni
      rw [h1, h2]
  · intro h k hk
    rw [List.mem_dedup, List.mem_append] at hk
    cases hm : assocGet m k with
    | some v =>
        have hi : assocGet ib k = some v := by rw [← h k, hm]
        rw [hi]
        simp
    | none =>
        exfalso
        have hi : assocGet ib k = none := by rw [← h k, hm]
        rcases hk with hk | hk
        · have := assocGet_isSome_iff.mpr hk
          rw [hm] at this
          exact absurd this (by decide)
        · have := assocGet_isSome_iff.mpr hk
          rw [hi] at this
          exact absurd this (by decide)

/-- Claim C7 counterexample: the `_compare_eas` of
aws_infoblox_vpc_manager_working.py (also cited by the claim) returns
`True` for `mapped_eas = {'a': '1'}` against
`ib_eas = {'a': '1', 'b': '2'}`, although the key sets are not identical
(`mapped_eas`'s keys are a strict subset of `ib_eas`'s) — it checks only
one direction. The v2/complete variant returns `False` on the same
input. -/
theorem C7_counterexample :
    compare_eas_working [("a", "1")] [("a", "1"), ("b", "2")] = true ∧
    compare_eas [("a", "1")] [("a", "1"), ("b", "2")] = false ∧
    "b" ∈ ([("a", "1"), ("b", "2")].map
      (Prod.fst (α := String) (β := String))) ∧
    "b" ∉ ([("a", "1")].map (Prod.fst (α := String) (β := String))) := by
  refine ⟨by decide, by decide, by decide, by decide⟩

/-- Claim C7 (amended): the `_compare_eas` of
aws_infoblox_vpc_manager_complete_v2.py (and the enhanced property
variant) implements exact two-sided equality — it returns `True` iff the
two key sets are identical and every shared key's values are equal —
whereas the `_compare_eas` of aws_infoblox_vpc_manager_working.py checks
only one direction: it returns `True` iff every `mapped_eas` entry is
present with an equal value in `ib_eas`, so stored attributes that are a
strict superset still count as a match there. -/
theorem C7_compare_eas_exact_vs_working (m ib : List (String × String)) :
    (compare_eas m ib = true ↔
      ((∀ k, ((assocGet m k).isSome = true ↔ (assocGet ib k).isSome = true)) ∧
       (∀ k v w, assocGet m k = some v → assocGet ib k = some w → v = w))) ∧
    (compare_eas_working m ib = true ↔
      ∀ kv ∈ m, assocGet ib kv.1 = some kv.2) := by
  constructor
  · rw [compare_eas_eq_true_iff]
    constructor
    · intro h
      refine ⟨fun k => by rw [h k], fun k v w h1 h2 => ?_⟩
      rw [h k, h2] at h1
      exact (Option.some.inj h1).symm
    · rintro ⟨hs, hv⟩ k
      cases hm : assocGet m k with
      | some v =>
          have : (assocGet ib k).isSome = true :=
            (hs k).mp (by rw [hm]; rfl)
          rcases Option.isSome_iff_exists.mp this with ⟨w, hw⟩
          rw [hw, hv k v w hm hw]
      | none =>
          cases hi : assocGet ib k with
          | none => rfl
          | some w =>
              have : (assocGet m k).isSome = true :=
                (hs k).mpr (by rw [hi]; rfl)
              rw [hm] at this
              exact absurd this (by decide)
  · unfold compare_eas_working
    rw [List.all_eq_true]
    constructor
    · intro h kv hkv
      have := h kv hkv
      revert this
      cases hi : assocGet ib kv.1 <;> simp
    · intro h kv hkv
      rw [h kv hkv]
      simp

/-- Witness for C7's amended theorem: equal one-entry dicts compare
equal under the exact variant, and a subset compares `True` under the
working variant. -/
theorem C7_witness :
    compare_eas [("a", "1")] [("a", "1")] = true ∧
    compare_eas_working [("a", "1")] [("a", "1"), ("b", "2")] = true := by
  constructor
  · exact (C7_compare_eas_exact_vs_working [("a", "1")] [("a", "1")]).1.mpr
      ⟨fun k => Iff.rfl, fun k v w h1 h2 => Option.some.inj (h1.symm.trans h2)⟩
  · exact (C7_compare_eas_exact_vs_working
      [("a", "1")] [("a", "1"), ("b", "2")]).2.mpr (by decide)

/-! ### Overlap-analysis lemmas -/

/-- A `'contains'` or `'overlap'` verdict implies both CIDRs parsed. -/
theorem check_result_parses (c1 c2 : String)
    (h : check_network_overlap c1 c2 = "contains" ∨
         check_network_overlap c1 c2 = "overlap") :
    (ip_network c1).isSome = true ∧ (ip_network c2).isSome = true := by
  cases h1 : ip_network c1 with
  | none =>
      exfalso
      simp only [check_network_overlap, h1] at h
      rcases h with h | h <;> exact absurd h (by decide)
  | some n1 =>
      cases h2 : ip_network c2 with
      | none =>
          exfalso
          simp only [check_network_overlap, h1, h2] at h
          rcases h with h | h <;> exact absurd h (by decide)
      | some n2 => exact ⟨rfl, rfl⟩

theorem setAdd_mem {l : List String} {s c : String}
    (h : c ∈ setAdd l s) : c ∈ l ∨ c = s := by
  unfold setAdd at h
  split at h
  · exact Or.inl h
  · rcases List.mem_append.mp h with h | h
    · exact Or.inl h
    · exact Or.inr (List.mem_singleton.mp h)

theorem relAppend_mem {r : List (String × List MissingNet)} {k : String}
    {n : MissingNet} {q : String × List MissingNet}
    (h : q ∈ relAppend r k n) :
    (∃ q' ∈ r, q.1 = q'.1 ∧ ∀ m ∈ q.2, m ∈ q'.2 ∨ m = n) ∨ q = (k, [n]) := by
  induction r with
  | nil =>
      simp only [relAppend, List.mem_singleton] at h
      exact Or.inr h
  | cons p rest ih =>
      unfold relAppend at h
      split at h
      · rcases List.mem_cons.mp h with h | h
        · refine Or.inl ⟨p, List.mem_cons_self _ _, ?_, ?_⟩
          · rw [h]
          · intro m hm
            rw [h] at hm
            rcases List.mem_append.mp hm with hm | hm
            · exact Or.inl hm
            · exact Or.inr (List.mem_singleton.mp hm)
        · refine Or.inl ⟨q, List.mem_cons_of_mem _ h, rfl, ?_⟩
          exact fun m hm => Or.inl hm
      · rcases List.mem_cons.mp h with h | h
        · exact Or.inl ⟨p, List.mem_cons_self _ _, by rw [h],
            fun m hm => Or.inl (h ▸ hm)⟩
        · rcases ih h with ⟨q', hq', h1, h2⟩ | h'
          · exact Or.inl ⟨q', List.mem_cons_of_mem _ hq', h1, h2⟩
          · exact Or.inr h'

theorem pairStep_parsed {n1 n2 : MissingNet} {acc : OverlapAnalysis}
    (hacc : parsedAnalysis acc) : parsedAnalysis (pairStep n1 acc n2) := by
  unfold pairStep
  split
  · rename_i ht
    have hparse := check_result_parses n1.cidr n2.cidr
      (Or.inl (by simpa using ht))
    obtain ⟨hc, hr, ho⟩ := hacc
    refine ⟨?_, ?_, ho⟩
    · intro c hcmem
      rcases setAdd_mem hcmem with h | h
      · exact hc c h
      · rw [h]; exact hparse.1
    · intro p hp
      rcases relAppend_mem hp with ⟨q', hq', h1, h2⟩ | h'
      · refine ⟨h1 ▸ (hr q' hq').1, ?_⟩
        intro m hm
        rcases h2 m hm with hm' | hm'
        · exact (hr q' hq').2 m hm'
        · rw [hm']; exact hparse.2
      · rw [h']
        refine ⟨hparse.1, ?_⟩
        intro m hm
        rw [List.mem_singleton.mp hm]
        exact hparse.2
  · split
    · rename_i ht
      have hparse := check_result_parses n1.cidr n2.cidr
        (Or.inr (by simpa using ht))
      obtain ⟨hc, hr, ho⟩ := hacc
      refine ⟨hc, hr, ?_⟩
      intro ov hov
      rcases List.mem_append.mp hov with h | h
      · exact ho ov h
      · rw [List.mem_singleton.mp h]
        exact hparse
    · exact hacc

theorem foldl_pairStep_parsed (n1 : MissingNet) (l : List MissingNet) :
    ∀ (acc : OverlapAnalysis), parsedAnalysis acc →
    parsedAnalysis (l.foldl (pairStep n1) acc) := by
  induction l with
  | nil => intro acc h; exact h
  | cons m rest ih => intro acc h; exact ih _ (pairStep_parsed h)

theorem analyzeLoop_parsed (l : List MissingNet) :
    ∀ (acc : OverlapAnalysis), parsedAnalysis acc →
    parsedAnalysis (analyzeLoop l acc) := by
  induction l with
  | nil => intro acc h; exact h
  | cons n rest ih =>
      intro acc h
      exact ih _ (foldl_pairStep_parsed n rest acc h)

theorem keyRecords_isSome {networks : List MissingNet}
    (h : ∀ n ∈ networks, (cidrPrefixField n.cidr).isSome = true) :
    (keyRecords networks).isSome = true := by
  induction networks with
  | nil => rfl
  | cons n rest ih =>
      unfold keyRecords
      have h1 := h n (List.mem_cons_self _ _)
      rcases Option.isSome_iff_exists.mp h1 with ⟨k, hk⟩
      have h2 := ih (fun m hm => h m (List.mem_cons_of_mem _ hm))
      rcases Option.isSome_iff_exists.mp h2 with ⟨ks, hks⟩
      rw [hk, hks]
      rfl

/-- Claim C3 counterexample: a record whose cidr string lacks a `'/'`
(here `"10.0.0.0"`) crashes `analyze_network_overlaps` — the sort-key
expression `int(x['cidr'].split('/')[1])` raises an uncaught
`IndexError`, so the analysis is not produced at all, contradicting
"terminates without raising an exception even when some record's cidr
string is malformed (e.g. lacks a '/')". -/
theorem C3_counterexample :
    analyze_network_overlaps
      [⟨"10.0.0.0", "site1", "host1", []⟩,
       ⟨"10.0.0.0/16", "site2", "host2", []⟩] = .error () := by
  rfl

/-- Claim C3 (amended): the analysis survives a malformed cidr only when
every record's cidr still has an integer field after its first `'/'`
(the sort-key computation raises otherwise, aborting the whole
analysis); under that proviso `analyze_network_overlaps` returns a
result, and a record whose cidr fails IP-network parsing (e.g.
`"abc/16"`) is excluded from every pairwise relationship — it is never a
container, never a recorded child, and never part of an overlap pair
(`check_network_overlap` returns `'error'` for its pairs). No separate
per-record validation report is produced; the failure is only logged. -/
theorem C3_malformed_cidr_handling (networks : List MissingNet)
    (hkeys : ∀ n ∈ networks, (cidrPrefixField n.cidr).isSome = true) :
    ∃ a, analyze_network_overlaps networks = .ok a ∧
      ∀ r : MissingNet, ip_network r.cidr = none →
        (r.cidr ∉ a.containers ∧
         (∀ p ∈ a.relationships, p.1 ≠ r.cidr ∧ r ∉ p.2) ∧
         (∀ ov ∈ a.overlaps, ov.network1 ≠ r ∧ ov.network2 ≠ r)) := by
  rcases Option.isSome_iff_exists.mp (keyRecords_isSome hkeys) with ⟨keyed, hk⟩
  refine ⟨analyzeLoop ((sortByKey keyed).map Prod.snd) ⟨[], [], []⟩, ?_, ?_⟩
  · unfold analyze_network_overlaps
    rw [hk]
  · intro r hr
    have hinv := analyzeLoop_parsed ((sortByKey keyed).map Prod.snd)
      ⟨[], [], []⟩ ⟨by simp, by simp, by simp⟩
    obtain ⟨hc, hrel, ho⟩ := hinv
    refine ⟨?_, ?_, ?_⟩
    · intro hmem
      have := hc _ hmem
      rw [hr] at this
      exact absurd this (by decide)
    · intro p hp
      constructor
      · intro he
        have := (hrel p hp).1
        rw [he, hr] at this
        exact absurd this (by decide)
      · intro hm
        have := (hrel p hp).2 r hm
        rw [hr] at this
        exact absurd this (by decide)
    · intro ov hov
      constructor
      · intro he
        have := (ho ov hov).1
        rw [he, hr] at this
        exact absurd this (by decide)
      · intro he
        have := (ho ov hov).2
        rw [he, hr] at this
        exact absurd this (by decide)

/-- Witness for C3's amended theorem: a batch containing the
IP-unparseable cidr `"abc/16"` (its sort key still parses) is analyzed
without an exception. -/
theorem C3_witness :
    ∃ a, analyze_network_overlaps
        [⟨"abc/16", "site1", "host1", []⟩,
         ⟨"10.0.0.0/16", "site2", "host2", []⟩] = .ok a ∧
      ∀ r : MissingNet, ip_network r.cidr = none →
        (r.cidr ∉ a.containers ∧
         (∀ p ∈ a.relationships, p.1 ≠ r.cidr ∧ r ∉ p.2) ∧
         (∀ ov ∈ a.overlaps, ov.network1 ≠ r ∧ ov.network2 ≠ r)) :=
  C3_malformed_cidr_handling _ (by decide)

/-! ### Reconciliation lemmas -/

/-- Each processed row lands in exactly one bucket: the multiset of
`property` fields grows by exactly that row. -/
theorem classifyRow_allProps (lookup : String → Except String CheckResult)
    (res : CompareResults) (p : PropRow) :
    (allProps (classifyRow lookup res p)).Perm (allProps res ++ [p]) := by
  apply List.perm_iff_count.mpr
  intro x
  simp only [classifyRow]
  cases hl : lookup p.cidr with
  | error msg =>
      dsimp only
      split <;> (simp [allProps, List.count_append, List.count_cons]; try omega)
  | ok chk =>
      dsimp only
      split
      · simp [allProps, List.count_append, List.count_cons]; try omega
      · split
        · cases ho : chk.object with
          | none =>
              dsimp only
              split <;> (simp [allProps, List.count_append, List.count_cons]; try omega)
          | some obj =>
              dsimp only
              simp [allProps, List.count_append, List.count_cons]; try omega
        · cases ho : chk.object with
          | none =>
              dsimp only
              split <;> (simp [allProps, List.count_append, List.count_cons]; try omega)
          | some obj =>
              dsimp only
              split <;> (simp [allProps, List.count_append, List.count_cons]; try omega)

theorem compareFold_allProps (lookup : String → Except String CheckResult)
    (rows : List PropRow) :
    ∀ acc : CompareResults,
    (allProps (rows.foldl (classifyRow lookup) acc)).Perm
      (allProps acc ++ rows) := by
  induction rows with
  | nil => intro acc; simp
  | cons r rs ih =>
      intro acc
      rw [List.foldl_cons]
      refine (ih (classifyRow lookup acc r)).trans ?_
      refine ((classifyRow_allProps lookup acc r).append_right rs).trans ?_
      rw [List.append_assoc]
      exact List.Perm.refl _

/-- Claim C5: bucket exclusivity of reconciliation. For every input row
list and every behaviour of the external lookup (object returned as
network or container, clean absence, or a raised exception),
`compare_properties_with_infoblox` places each input row in exactly one
of the five buckets: the multiset of `property` fields collected over
`matches ++ missing ++ discrepancies ++ containers ++ errors` is a
permutation of the input rows — never zero placements, never more than
one. -/
theorem C5_bucket_exclusivity (lookup : String → Except String CheckResult)
    (rows : List PropRow) :
    (allProps (compare_properties_with_infoblox lookup rows)).Perm rows := by
  have h := compareFold_allProps lookup rows emptyResults
  simpa [allProps, emptyResults, compare_properties_with_infoblox] using h

/-! ### Orchestrator lemmas -/

theorem containerStep_cidr {missing : List MissingNet}
    {oc : String → Option String} {dryRun : Bool} {c : String} {e : Event}
    (h : e ∈ containerStep missing oc dryRun c) : eventCidr e = c := by
  unfold containerStep at h
  cases hf : missing.find? (fun n => n.cidr == c) with
  | none =>
      simp only [hf] at h
      exact absurd h (List.not_mem_nil e)
  | some info =>
      simp only [hf] at h
      split at h
      · rw [List.mem_singleton.mp h]; rfl
      · cases ho : oc c with
        | none =>
            simp only [ho] at h
            rcases List.mem_cons.mp h with h | h
            · rw [h]; rfl
            · rw [List.mem_singleton.mp h]; rfl
        | some err =>
            simp only [ho] at h
            rcases List.mem_cons.mp h with h | h
            · rw [h]; rfl
            · rw [List.mem_singleton.mp h]; rfl

theorem networkStep_cidr {a : OverlapAnalysis}
    {on_ : String → Option String} {dryRun : Bool} {n : MissingNet}
    {e : Event} (h : e ∈ networkStep a on_ dryRun n) :
    eventCidr e = n.cidr ∧ a.containers.contains n.cidr = false := by
  unfold networkStep at h
  split at h
  · exact absurd h (List.not_mem_nil e)
  · rename_i hc
    have hcf : a.containers.contains n.cidr = false :=
      Bool.not_eq_true _ ▸ (by simpa using hc)
    refine ⟨?_, hcf⟩
    cases hf : a.overlaps.find? (fun ov => ov.network1 == n || ov.network2 == n) with
    | some ov =>
        simp only [hf] at h
        rw [List.mem_singleton.mp h]; rfl
    | none =>
        simp only [hf] at h
        split at h
        · rw [List.mem_singleton.mp h]; rfl
        · cases ho : on_ n.cidr with
          | none =>
              simp only [ho] at h
              rcases List.mem_cons.mp h with h | h
              · rw [h]; rfl
              · rw [List.mem_singleton.mp h]; rfl
          | some err =>
              simp only [ho] at h
              rcases List.mem_cons.mp h with h | h
              · rw [h]; rfl
              · rw [List.mem_singleton.mp h]; rfl

theorem mem_containerPhase {order : List String} {missing : List MissingNet}
    {oc : String → Option String} {dryRun : Bool} {e : Event}
    (h : e ∈ (order.map (containerStep missing oc dryRun)).flatten) :
    ∃ c ∈ order, e ∈ containerStep missing oc dryRun c := by
  rcases List.mem_flatten.mp h with ⟨l, hl, he⟩
  rcases List.mem_map.mp hl with ⟨c, hc, rfl⟩
  exact ⟨c, hc, he⟩

theorem mem_networkPhase {a : OverlapAnalysis} {missing : List MissingNet}
    {on_ : String → Option String} {dryRun : Bool} {e : Event}
    (h : e ∈ (missing.map (networkStep a on_ dryRun)).flatten) :
    ∃ n ∈ missing, e ∈ networkStep a on_ dryRun n := by
  rcases List.mem_flatten.mp h with ⟨l, hl, he⟩
  rcases List.mem_map.mp hl with ⟨n, hn, rfl⟩
  exact ⟨n, hn, he⟩

/-- Claim C4 counterexample. For the batch
`{10.0.0.0/8, 10.0.0.0/16, 10.0.0.0/24}` the analysis makes both the /8
and the /16 containers, with the /16 record a child of the /8. The
container loop iterates the `containers` set in CPython's unspecified
set order; under the legitimate order `[10.0.0.0/16, 10.0.0.0/8]` (a
permutation of the set) the contained record `10.0.0.0/16` receives its
creation outcome (position 1, found by `findIdx`) strictly before its
container `10.0.0.0/8` (position 3), so the container's outcome does not
precede the outcome of every record it contains. -/
theorem C4_counterexample :
    analyze_network_overlaps
        [⟨"10.0.0.0/8", "s8", "h8", []⟩, ⟨"10.0.0.0/16", "s16", "h16", []⟩,
         ⟨"10.0.0.0/24", "s24", "h24", []⟩] =
      .ok ⟨["10.0.0.0/8", "10.0.0.0/16"],
           [("10.0.0.0/8",
             [⟨"10.0.0.0/16", "s16", "h16", []⟩,
              ⟨"10.0.0.0/24", "s24", "h24", []⟩]),
            ("10.0.0.0/16", [⟨"10.0.0.0/24", "s24", "h24", []⟩])],
           []⟩ ∧
    List.Perm ["10.0.0.0/16", "10.0.0.0/8"] ["10.0.0.0/8", "10.0.0.0/16"] ∧
    create_missing_networks_with_overlap_check
        [⟨"10.0.0.0/8", "s8", "h8", []⟩, ⟨"10.0.0.0/16", "s16", "h16", []⟩,
         ⟨"10.0.0.0/24", "s24", "h24", []⟩]
        ["10.0.0.0/16", "10.0.0.0/8"] (fun _ => none) (fun _ => none) false =
      .ok [.callContainer "10.0.0.0/16",
           .outcome "10.0.0.0/16" .createdContainer,
           .callContainer "10.0.0.0/8",
           .outcome "10.0.0.0/8" .createdContainer,
           .callNetwork "10.0.0.0/24",
           .outcome "10.0.0.0/24" .created] ∧
    List.findIdx (fun e => e == Event.outcome "10.0.0.0/16" .createdContainer)
        [Event.callContainer "10.0.0.0/16",
         Event.outcome "10.0.0.0/16" .createdContainer,
         Event.callContainer "10.0.0.0/8",
         Event.outcome "10.0.0.0/8" .createdContainer,
         Event.callNetwork "10.0.0.0/24",
         Event.outcome "10.0.0.0/24" .created] = 1 ∧
    List.findIdx (fun e => e == Event.outcome "10.0.0.0/8" .createdContainer)
        [Event.callContainer "10.0.0.0/16",
         Event.outcome "10.0.0.0/16" .createdContainer,
         Event.callContainer "10.0.0.0/8",
         Event.outcome "10.0.0.0/8" .createdContainer,
         Event.callNetwork "10.0.0.0/24",
         Event.outcome "10.0.0.0/24" .created] = 3 ∧
    ¬ ((3 : Nat) < 1) := by
  refine ⟨rfl, by decide, rfl, by decide, by decide, by decide⟩

/-- Claim C4 (amended): every event (external call or result entry) for
a container CIDR `C` precedes every event for a contained record `D`
PROVIDED `D` is not itself in the `containers` set: all containers are
created in the container loop, which runs entirely before the
regular-network loop that handles non-container records. When the
contained record is itself a container (nested containers), its relative
order against `C` is the iteration order of the Python `set`, which is
unspecified — the original claim fails there (see the counterexample). -/
theorem C4_container_before_nonContainer_child
    (missing : List MissingNet) (containerOrder : List String)
    (a : OverlapAnalysis) (oc on_ : String → Option String) (dryRun : Bool)
    (C : String) (ds : List MissingNet) (D : MissingNet)
    (ha : analyze_network_overlaps missing = .ok a)
    (hord : containerOrder.Perm a.containers)
    (hC : C ∈ a.containers)
    (hrel : (C, ds) ∈ a.relationships)
    (hD : D ∈ ds)
    (hDnc : D.cidr ∉ a.containers) :
    create_missing_networks_with_overlap_check missing containerOrder
        oc on_ dryRun =
      .ok (create_missing_core a containerOrder missing oc on_ dryRun) ∧
    ∀ i j
      (hi : i < (create_missing_core a containerOrder missing oc on_
        dryRun).length)
      (hj : j < (create_missing_core a containerOrder missing oc on_
        dryRun).length),
      eventCidr ((create_missing_core a containerOrder missing oc on_
        dryRun).get ⟨i, hi⟩) = C →
      eventCidr ((create_missing_core a containerOrder missing oc on_
        dryRun).get ⟨j, hj⟩) = D.cidr → i < j := by
  constructor
  · unfold create_missing_networks_with_overlap_check
    rw [ha]
  · intro i j hi hj hiC hjD
    have hBnotC : ∀ e ∈ (missing.map (networkStep a on_ dryRun)).flatten,
        eventCidr e ≠ C := by
      intro e he heq
      rcases mem_networkPhase he with ⟨n, hn, hstep⟩
      rcases networkStep_cidr hstep with ⟨hcid, hcont⟩
      rw [heq] at hcid
      rw [hcid] at hC
      have : a.containers.contains n.cidr = true := by
        simp [List.contains]
        exact hC
      rw [this] at hcont
      exact absurd hcont (by decide)
    have hAnotD : ∀ e ∈ (containerOrder.map
        (containerStep missing oc dryRun)).flatten,
        eventCidr e ≠ D.cidr := by
      intro e he heq
      rcases mem_containerPhase he with ⟨c, hcord, hstep⟩
      have := containerStep_cidr hstep
      rw [heq] at this
      rw [← this] at hcord
      exact hDnc (hord.mem_iff.mp hcord)
    have keyR : ∀ (L1 L2 : List Event) (s : String) k
        (hk : k < (L1 ++ L2).length),
        (∀ e ∈ L2, eventCidr e ≠ s) →
        eventCidr ((L1 ++ L2).get ⟨k, hk⟩) = s → k < L1.length := by
      intro L1 L2 s k hk hno hs
      by_contra hge
      push_neg at hge
      rw [List.get_eq_getElem, List.getElem_append_right hge] at hs
      exact hno _ (List.getElem_mem _) hs
    have keyL : ∀ (L1 L2 : List Event) (s : String) k
        (hk : k < (L1 ++ L2).length),
        (∀ e ∈ L1, eventCidr e ≠ s) →
        eventCidr ((L1 ++ L2).get ⟨k, hk⟩) = s → L1.length ≤ k := by
      intro L1 L2 s k hk hno hs
      by_contra hlt
      push_neg at hlt
      rw [List.get_eq_getElem, List.getElem_append_left hlt] at hs
      exact hno _ (List.getElem_mem _) hs
    have h1 := keyR ((containerOrder.map
        (containerStep missing oc dryRun)).flatten)
      ((missing.map (networkStep a on_ dryRun)).flatten) C i hi hBnotC hiC
    have h2 := keyL ((containerOrder.map
        (containerStep missing oc dryRun)).flatten)
      ((missing.map (networkStep a on_ dryRun)).flatten) D.cidr j hj
      hAnotD hjD
    omega

/-- Witness for C4's amended theorem: in the batch
`{10.0.0.0/8, 10.0.0.0/16}` the /8 is the only container and the /16 its
non-container child; the /8 events (positions 0 and 1) precede the /16
events (positions 2 and 3), and in particular `1 < 2`. -/
theorem C4_witness : (1 : Nat) < 2 := by
  have h := C4_container_before_nonContainer_child
    [⟨"10.0.0.0/8", "s8", "h8", []⟩, ⟨"10.0.0.0/16", "s16", "h16", []⟩]
    ["10.0.0.0/8"]
    ⟨["10.0.0.0/8"],
     [("10.0.0.0/8", [⟨"10.0.0.0/16", "s16", "h16", []⟩])], []⟩
    (fun _ => none) (fun _ => none) false
    "10.0.0.0/8" [⟨"10.0.0.0/16", "s16", "h16", []⟩]
    ⟨"10.0.0.0/16", "s16", "h16", []⟩
    rfl (by decide) (by decide) (by decide) (by decide) (by decide)
  exact h.2 1 2 (by decide) (by decide) (by decide) (by decide)

theorem outcomeKinds_append (l1 l2 : List Event) :
    outcomeKinds (l1 ++ l2) = outcomeKinds l1 ++ outcomeKinds l2 :=
  List.filterMap_append l1 l2 _

theorem kinds_containerStep_dry (missing : List MissingNet)
    (oc : String → Option String) (c : String) :
    outcomeKinds (containerStep missing oc true c) =
      if (missing.find? (fun n => n.cidr == c)).isSome then
        [ActKind.containerK] else [] := by
  unfold containerStep
  cases hf : missing.find? (fun n => n.cidr == c) <;>
    simp [outcomeKinds, actKind]

theorem kinds_containerStep_live (missing : List MissingNet) (c : String) :
    outcomeKinds (containerStep missing (fun _ => none) false c) =
      if (missing.find? (fun n => n.cidr == c)).isSome then
        [ActKind.containerK] else [] := by
  unfold containerStep
  cases hf : missing.find? (fun n => n.cidr == c) <;>
    simp [outcomeKinds, actKind]

theorem kinds_phase_replicate (order : List String)
    (f : String → List Event) (p : String → Bool)
    (h : ∀ c, outcomeKinds (f c) = if p c then [ActKind.containerK] else []) :
    outcomeKinds ((order.map f).flatten) =
      List.replicate (order.countP p) ActKind.containerK := by
  induction order with
  | nil => rfl
  | cons c rest ih =>
      simp only [List.map_cons, List.flatten_cons]
      rw [outcomeKinds_append, h c, ih, List.countP_cons]
      by_cases hp : p c = true
      · simp [hp, List.replicate_succ, Nat.add_comm]
      · simp only [Bool.not_eq_true] at hp
        simp [hp]

theorem kinds_networkStep_parity (a : OverlapAnalysis)
    (on_ : String → Option String) (n : MissingNet) :
    outcomeKinds (networkStep a on_ true n) =
      outcomeKinds (networkStep a (fun _ => none) false n) := by
  unfold networkStep
  split
  · rfl
  · cases hf : a.overlaps.find?
        (fun ov => ov.network1 == n || ov.network2 == n) <;>
      simp [outcomeKinds, actKind]

theorem kinds_networkPhase (a : OverlapAnalysis)
    (on_ : String → Option String) (missing : List MissingNet) :
    outcomeKinds ((missing.map (networkStep a on_ true)).flatten) =
      outcomeKinds ((missing.map
        (networkStep a (fun _ => none) false)).flatten) := by
  induction missing with
  | nil => rfl
  | cons n rest ih =>
      simp only [List.map_cons, List.flatten_cons]
      rw [outcomeKinds_append, outcomeKinds_append,
        kinds_networkStep_parity, ih]

/-- Claim C6: dry-run parity. For every missing-networks input whose
analysis succeeds, the sequence of action kinds (container creation /
network creation / overlap skip — the part of the `action` strings left
after removing the `would_` marker) produced with `dry_run=True` is
identical to the sequence produced with `dry_run=False` when every
external create call is stubbed to succeed; each run may iterate the
`containers` set in its own (unspecified) order. The two modes differ
only in whether the mutating external calls fire. -/
theorem C6_dry_run_parity (missing : List MissingNet) (a : OverlapAnalysis)
    (orderD orderL : List String) (oc on_ : String → Option String)
    (ha : analyze_network_overlaps missing = .ok a)
    (hD : orderD.Perm a.containers) (hL : orderL.Perm a.containers) :
    create_missing_networks_with_overlap_check missing orderD oc on_ true =
      .ok (create_missing_core a orderD missing oc on_ true) ∧
    create_missing_networks_with_overlap_check missing orderL
        (fun _ => none) (fun _ => none) false =
      .ok (create_missing_core a orderL missing
        (fun _ => none) (fun _ => none) false) ∧
    outcomeKinds (create_missing_core a orderD missing oc on_ true) =
      outcomeKinds (create_missing_core a orderL missing
        (fun _ => none) (fun _ => none) false) := by
  refine ⟨?_, ?_, ?_⟩
  · unfold create_missing_networks_with_overlap_check
    rw [ha]
  · unfold create_missing_networks_with_overlap_check
    rw [ha]
  · unfold create_missing_core
    rw [outcomeKinds_append, outcomeKinds_append]
    have hcont :
        outcomeKinds ((orderD.map (containerStep missing oc true)).flatten) =
        outcomeKinds ((orderL.map
          (containerStep missing (fun _ => none) false)).flatten) := by
      rw [kinds_phase_replicate orderD _ _ (kinds_containerStep_dry missing oc),
        kinds_phase_replicate orderL _ _ (kinds_containerStep_live missing)]
      rw [List.Perm.countP_eq _ hD, List.Perm.countP_eq _ hL]
    rw [hcont, kinds_networkPhase]

/-- Witness for C6 on the batch `{10.0.0.0/8, 10.0.0.0/16}`: the kind
sequence is container, network in both modes. -/
theorem C6_witness :
    outcomeKinds (create_missing_core
      ⟨["10.0.0.0/8"],
       [("10.0.0.0/8", [⟨"10.0.0.0/16", "s16", "h16", []⟩])], []⟩
      ["10.0.0.0/8"]
      [⟨"10.0.0.0/8", "s8", "h8", []⟩, ⟨"10.0.0.0/16", "s16", "h16", []⟩]
      (fun _ => none) (fun _ => none) true) =
    outcomeKinds (create_missing_core
      ⟨["10.0.0.0/8"],
       [("10.0.0.0/8", [⟨"10.0.0.0/16", "s16", "h16", []⟩])], []⟩
      ["10.0.0.0/8"]
      [⟨"10.0.0.0/8", "s8", "h8", []⟩, ⟨"10.0.0.0/16", "s16", "h16", []⟩]
      (fun _ => none) (fun _ => none) false) :=
  (C6_dry_run_parity
    [⟨"10.0.0.0/8", "s8", "h8", []⟩, ⟨"10.0.0.0/16", "s16", "h16", []⟩]
    ⟨["10.0.0.0/8"],
     [("10.0.0.0/8", [⟨"10.0.0.0/16", "s16", "h16", []⟩])], []⟩
    ["10.0.0.0/8"] ["10.0.0.0/8"]
    (fun _ => none) (fun _ => none)
    rfl (by decide) (by decide)).2.2

/-- Claim C8 counterexample. The orchestrator logic (the creation loops
operating on an overlap analysis, the spec's
`create(orderedRecords, overlapAnalysis, …)` contract) violates the
"including when that same CIDR is also in the containers set" part: for
an analysis in which the record `10.0.0.0/8` both is a container and
appears in an irreconcilable-overlap pair, the container loop still
issues the external container-create call for it and its terminal
outcome is `created_container`, not the skipped-due-to-overlap outcome.
(The container loop runs before the overlap check, which lives only in
the regular-network loop.) -/
theorem C8_counterexample :
    (OverlapPair.mk ⟨"10.0.0.0/8", "s8", "h8", []⟩
        ⟨"10.0.0.0/16", "s16", "h16", []⟩
        "Networks 10.0.0.0/8 and 10.0.0.0/16 partially overlap") ∈
      (OverlapAnalysis.mk ["10.0.0.0/8"]
        [("10.0.0.0/8", [⟨"10.0.0.0/16", "s16", "h16", []⟩])]
        [⟨⟨"10.0.0.0/8", "s8", "h8", []⟩, ⟨"10.0.0.0/16", "s16", "h16", []⟩,
          "Networks 10.0.0.0/8 and 10.0.0.0/16 partially overlap"⟩]).overlaps ∧
    "10.0.0.0/8" ∈
      (OverlapAnalysis.mk ["10.0.0.0/8"]
        [("10.0.0.0/8", [⟨"10.0.0.0/16", "s16", "h16", []⟩])]
        [⟨⟨"10.0.0.0/8", "s8", "h8", []⟩, ⟨"10.0.0.0/16", "s16", "h16", []⟩,
          "Networks 10.0.0.0/8 and 10.0.0.0/16 partially overlap"⟩]).containers ∧
    create_missing_core
        ⟨["10.0.0.0/8"],
         [("10.0.0.0/8", [⟨"10.0.0.0/16", "s16", "h16", []⟩])],
         [⟨⟨"10.0.0.0/8", "s8", "h8", []⟩, ⟨"10.0.0.0/16", "s16", "h16", []⟩,
           "Networks 10.0.0.0/8 and 10.0.0.0/16 partially overlap"⟩]⟩
        ["10.0.0.0/8"]
        [⟨"10.0.0.0/8", "s8", "h8", []⟩, ⟨"10.0.0.0/16", "s16", "h16", []⟩]
        (fun _ => none) (fun _ => none) false =
      [.callContainer "10.0.0.0/8",
       .outcome "10.0.0.0/8" .createdContainer,
       .outcome "10.0.0.0/16" (.skippedOverlap
         "Networks 10.0.0.0/8 and 10.0.0.0/16 partially overlap")] ∧
    Event.callContainer "10.0.0.0/8" ∈
      [Event.callContainer "10.0.0.0/8",
       Event.outcome "10.0.0.0/8" Act.createdContainer,
       Event.outcome "10.0.0.0/16" (Act.skippedOverlap
         "Networks 10.0.0.0/8 and 10.0.0.0/16 partially overlap")] ∧
    List.filter (fun e => eventCidr e == "10.0.0.0/8")
      [Event.callContainer "10.0.0.0/8",
       Event.outcome "10.0.0.0/8" Act.createdContainer,
       Event.outcome "10.0.0.0/16" (Act.skippedOverlap
         "Networks 10.0.0.0/8 and 10.0.0.0/16 partially overlap")] =
      [Event.callContainer "10.0.0.0/8",
       Event.outcome "10.0.0.0/8" Act.createdContainer] := by
  refine ⟨by decide, by decide, rfl, by decide, by decide⟩

/-- Claim C8 (amended): a record that appears in an
irreconcilable-overlap pair and whose CIDR is NOT in the `containers`
set (the only reachable situation: the container loop handles container
CIDRs before the overlap check is consulted) never receives an external
create call — assuming no other record shares its CIDR — and its
terminal outcome is the skipped-due-to-overlap entry; it does receive
exactly that outcome. -/
theorem C8_overlap_skip (a : OverlapAnalysis) (order : List String)
    (missing : List MissingNet) (oc on_ : String → Option String)
    (dryRun : Bool) (r : MissingNet)
    (hord : order.Perm a.containers)
    (hr : r ∈ missing)
    (hov : ∃ ov ∈ a.overlaps, (ov.network1 == r || ov.network2 == r) = true)
    (hnc : r.cidr ∉ a.containers)
    (huniq : ∀ r2 ∈ missing, r2.cidr = r.cidr → r2 = r) :
    (∀ e ∈ create_missing_core a order missing oc on_ dryRun,
        eventCidr e = r.cidr →
        ∃ reason, e = Event.outcome r.cidr (Act.skippedOverlap reason)) ∧
    (∃ e ∈ create_missing_core a order missing oc on_ dryRun,
        eventCidr e = r.cidr) := by
  have hcontF : a.containers.contains r.cidr = false := by
    cases hb : a.containers.contains r.cidr
    · rfl
    · exfalso
      apply hnc
      have hb2 := hb
      simp [List.contains] at hb2
      exact hb2
  have hovS : (a.overlaps.find?
      (fun ov => ov.network1 == r || ov.network2 == r)).isSome = true := by
    rcases hov with ⟨ov, hmem, hp⟩
    exact List.find?_isSome.mpr ⟨ov, hmem, hp⟩
  rcases Option.isSome_iff_exists.mp hovS with ⟨ovf, hovf⟩
  have hstep : networkStep a on_ dryRun r =
      [Event.outcome r.cidr (Act.skippedOverlap ovf.message)] := by
    unfold networkStep
    rw [hcontF]
    simp only [Bool.false_eq_true, if_false, hovf]
  constructor
  · intro e he heq
    rcases List.mem_append.mp he with he | he
    · exfalso
      rcases mem_containerPhase he with ⟨c, hcord, hcs⟩
      have hc := containerStep_cidr hcs
      rw [heq] at hc
      rw [← hc] at hcord
      exact hnc (hord.mem_iff.mp hcord)
    · rcases mem_networkPhase he with ⟨n, hn, hns⟩
      have hcid := (networkStep_cidr hns).1
      rw [heq] at hcid
      have hnr : n = r := huniq n hn hcid.symm
      rw [hnr, hstep] at hns
      rw [List.mem_singleton.mp hns]
      exact ⟨ovf.message, rfl⟩
  · refine ⟨Event.outcome r.cidr (Act.skippedOverlap ovf.message), ?_, rfl⟩
    apply List.mem_append.mpr
    right
    apply List.mem_flatten.mpr
    refine ⟨networkStep a on_ dryRun r, List.mem_map.mpr ⟨r, hr, rfl⟩, ?_⟩
    rw [hstep]
    exact List.mem_singleton_self _

/-- Witness for C8's amended theorem: two partially overlapping records
(analysis injected per the orchestrator contract), neither a container:
the first record's only event is its skipped outcome. -/
theorem C8_witness :
    (∀ e ∈ create_missing_core
        ⟨[], [], [⟨⟨"10.0.0.0/23", "sA", "hA", []⟩,
          ⟨"10.0.1.0/24", "sB", "hB", []⟩, "m"⟩]⟩
        [] [⟨"10.0.0.0/23", "sA", "hA", []⟩, ⟨"10.0.1.0/24", "sB", "hB", []⟩]
        (fun _ => none) (fun _ => none) false,
        eventCidr e = "10.0.0.0/23" →
        ∃ reason, e = Event.outcome "10.0.0.0/23"
          (Act.skippedOverlap reason)) ∧
    (∃ e ∈ create_missing_core
        ⟨[], [], [⟨⟨"10.0.0.0/23", "sA", "hA", []⟩,
          ⟨"10.0.1.0/24", "sB", "hB", []⟩, "m"⟩]⟩
        [] [⟨"10.0.0.0/23", "sA", "hA", []⟩, ⟨"10.0.1.0/24", "sB", "hB", []⟩]
        (fun _ => none) (fun _ => none) false,
        eventCidr e = "10.0.0.0/23") :=
  C8_overlap_skip
    ⟨[], [], [⟨⟨"10.0.0.0/23", "sA", "hA", []⟩,
      ⟨"10.0.1.0/24", "sB", "hB", []⟩, "m"⟩]⟩
    [] [⟨"10.0.0.0/23", "sA", "hA", []⟩, ⟨"10.0.1.0/24", "sB", "hB", []⟩]
    (fun _ => none) (fun _ => none) false
    ⟨"10.0.0.0/23", "sA", "hA", []⟩
    (by decide) (by decide) (by decide) (by decide) (by decide)

/-! ### Dead code: the partial-overlap branch is unreachable.

Two parsed CIDR blocks (power-of-two sized, aligned — `strict=False`
masks host bits) are always nested or disjoint, so
`check_network_overlap` never returns `'overlap'` and the
`skipped_due_to_overlap` path of the orchestrator can never fire on an
analysis actually produced by `analyze_network_overlaps`. -/

/-- Two aligned power-of-two blocks that intersect are nested: the
larger block contains the smaller. -/
theorem blocks_nested {a1 a2 d1 d2 : Nat} (hd1 : 0 < d1) (hd2 : 0 < d2)
    (hdd : d2 ∣ d1) (h1 : d1 ∣ a1) (h2 : d2 ∣ a2)
    (hi1 : a2 ≤ a1 + d1 - 1) (hi2 : a1 ≤ a2 + d2 - 1) :
    a1 ≤ a2 ∧ a2 + d2 - 1 ≤ a1 + d1 - 1 := by
  have hda1 : d2 ∣ a1 := dvd_trans hdd h1
  constructor
  · by_contra hlt
    push_neg at hlt
    have hdvd : d2 ∣ (a1 - a2) := Nat.dvd_sub' hda1 h2
    have hpos : 0 < a1 - a2 := by omega
    have := Nat.le_of_dvd hpos hdvd
    omega
  · have hdvd : d2 ∣ (a1 + d1) - a2 := Nat.dvd_sub' (Nat.dvd_add hda1 hdd) h2
    have hpos : 0 < (a1 + d1) - a2 := by omega
    have := Nat.le_of_dvd hpos hdvd
    omega

/-- Every network produced by `ip_network` is aligned: its block size
divides its network address. -/
theorem ip_network_aligned {s : String} {n : IPNet}
    (h : ip_network s = some n) : 2 ^ (32 - n.prefixLen) ∣ n.netAddr := by
  unfold ip_network at h
  cases hsp : splitOnChar '/' s.data with
  | nil =>
      simp only [hsp] at h
      exact absurd h (by simp)
  | cons a rest =>
      cases rest with
      | nil =>
          simp only [hsp] at h
          cases hp : parseIPv4 (String.mk a) with
          | none =>
              simp only [hp] at h
              exact absurd h (by simp)
          | some addr =>
              simp only [hp] at h
              have h2 : IPNet.mk addr 32 = n := by simpa using h
              subst h2
              simp
      | cons p rest2 =>
          cases rest2 with
          | nil =>
              simp only [hsp] at h
              cases hp : parseIPv4 (String.mk a) with
              | none =>
                  simp only [hp] at h
                  exact absurd h (by simp)
              | some addr =>
                  cases hq : parseDigits p with
                  | none =>
                      simp only [hp, hq] at h
                      exact absurd h (by simp)
                  | some pl =>
                      simp only [hp, hq] at h
                      split at h
                      · have h2 : IPNet.mk (maskHost addr pl) pl = n := by
                          simpa using h
                        subst h2
                        show 2 ^ (32 - pl) ∣ (addr / 2 ^ (32 - pl)) * 2 ^ (32 - pl)
                        exact dvd_mul_left _ _
                      · exact absurd h (by simp)
          | cons q rest3 =>
              simp only [hsp] at h
              exact absurd h (by simp)

/-- Aligned blocks that are not nested in either direction do not
overlap at all. -/
theorem aligned_no_partial_overlap {n1 n2 : IPNet}
    (ha1 : 2 ^ (32 - n1.prefixLen) ∣ n1.netAddr)
    (ha2 : 2 ^ (32 - n2.prefixLen) ∣ n2.netAddr)
    (hsup : supernet_of n1 n2 = false)
    (hsub : subnet_of n1 n2 = false) :
    ipOverlaps n1 n2 = false := by
  by_contra hov
  simp only [Bool.not_eq_false] at hov
  unfold ipOverlaps at hov
  rw [decide_eq_true_eq] at hov
  unfold supernet_of at hsup
  unfold subnet_of supernet_of at hsub
  rw [decide_eq_false_iff_not] at hsup hsub
  unfold broadcast at *
  have hd1 : 0 < 2 ^ (32 - n1.prefixLen) := Nat.pos_pow_of_pos _ (by omega)
  have hd2 : 0 < 2 ^ (32 - n2.prefixLen) := Nat.pos_pow_of_pos _ (by omega)
  have hint : n2.netAddr ≤ n1.netAddr + 2 ^ (32 - n1.prefixLen) - 1 ∧
      n1.netAddr ≤ n2.netAddr + 2 ^ (32 - n2.prefixLen) - 1 := by
    rcases hov with h | h | h | h <;> omega
  rcases Nat.le_total (32 - n2.prefixLen) (32 - n1.prefixLen) with hle | hle
  · have hdd : 2 ^ (32 - n2.prefixLen) ∣ 2 ^ (32 - n1.prefixLen) :=
      pow_dvd_pow 2 hle
    have := blocks_nested hd1 hd2 hdd ha1 ha2 hint.1 hint.2
    exact hsup ⟨this.1, this.2⟩
  · have hdd : 2 ^ (32 - n1.prefixLen) ∣ 2 ^ (32 - n2.prefixLen) :=
      pow_dvd_pow 2 hle
    have := blocks_nested hd2 hd1 hdd ha2 ha1 (by omega) (by omega)
    exact hsub ⟨this.1, this.2⟩

/-- `check_network_overlap` never returns `'overlap'`: parsed CIDR
blocks are always nested or disjoint, and parse failures return
`'error'`. -/
theorem check_network_overlap_ne_overlap (c1 c2 : String) :
    check_network_overlap c1 c2 ≠ "overlap" := by
  cases h1 : ip_network c1 with
  | none =>
      cases h2 : ip_network c2 with
      | none => simp only [check_network_overlap, h1, h2]; decide
      | some n2 => simp only [check_network_overlap, h1, h2]; decide
  | some n1 =>
      cases h2 : ip_network c2 with
      | none => simp only [check_network_overlap, h1, h2]; decide
      | some n2 =>
          simp only [check_network_overlap, h1, h2]
          cases hs : supernet_of n1 n2 with
          | true => rw [if_pos rfl]; decide
          | false =>
              rw [if_neg (by decide)]
              cases ht : subnet_of n1 n2 with
              | true => rw [if_pos rfl]; decide
              | false =>
                  rw [if_neg (by decide)]
                  have hov := aligned_no_partial_overlap
                    (ip_network_aligned h1) (ip_network_aligned h2) hs ht
                  rw [hov, if_neg (by decide)]
                  decide

/-- The `overlaps` list of every successful analysis is empty: the
irreconcilable-overlap reporting (and the orchestrator path that skips
such records) is dead code for analyses actually computed by
`analyze_network_overlaps`. -/
theorem analyze_overlaps_eq_nil (networks : List MissingNet)
    (a : OverlapAnalysis) (h : analyze_network_overlaps networks = .ok a) :
    a.overlaps = [] := by
  have hstep : ∀ (n1 n2 : MissingNet) (acc : OverlapAnalysis),
      (pairStep n1 acc n2).overlaps = acc.overlaps := by
    intro n1 n2 acc
    unfold pairStep
    split
    · rfl
    · split
      · rename_i hov
        exfalso
        exact check_network_overlap_ne_overlap n1.cidr n2.cidr
          (by simpa using hov)
      · rfl
  have hfold : ∀ (n1 : MissingNet) (l : List MissingNet)
      (acc : OverlapAnalysis),
      (l.foldl (pairStep n1) acc).overlaps = acc.overlaps := by
    intro n1 l
    induction l with
    | nil => intro acc; rfl
    | cons m rest ih =>
        intro acc
        rw [List.foldl_cons, ih, hstep]
  have hloop : ∀ (l : List MissingNet) (acc : OverlapAnalysis),
      (analyzeLoop l acc).overlaps = acc.overlaps := by
    intro l
    induction l with
    | nil => intro acc; rfl
    | cons n rest ih =>
        intro acc
        unfold analyzeLoop
        rw [ih, hfold]
  unfold analyze_network_overlaps at h
  cases hk : keyRecords networks with
  | none => rw [hk] at h; exact absurd h (by simp)
  | some keyed =>
      rw [hk] at h
      simp only [Except.ok.injEq] at h
      rw [← h]
      exact hloop _ _

end AwsInfoblox
